import Mathlib

/-!
Verification development for the typed-rest-client library.

The embedding models the library's source files:
* `lib/Util.ts` — `getUrl` (URL resolution on top of Node's legacy
  `url.parse`, `path.posix.resolve`, `url.format`) and
  `prepareUrlWithQueryParams` (on top of `querystring.stringify`);
* `lib/RestClient.ts` — `_processResponse` and the REST verbs;
* the JSON content handler (`DefaultJsonHandler`).

JavaScript strings are modelled as `List Char`; `String` wrappers are
provided at the boundaries.  External Node builtins (`url`, `path`,
`querystring`) are translated from their documented/implemented behaviour
on the grammar the library exercises; JS builtins with open-ended behaviour
(`JSON.parse`, `new Date(string)`) are taken as explicit function
parameters.  Fallible code (a thrown `TypeError`) is rendered as `Option`.
-/

/-- A JavaScript string. -/
abbrev JStr := List Char

namespace JsUrl

/-- Split a list at the first occurrence of `c`.  Returns the part before
`c` and, when `c` occurs, the part after it. -/
def splitAtFirst (c : Char) : JStr → JStr × Option JStr
  | [] => ([], none)
  | a :: t =>
    if a = c then ([], some t)
    else
      let r := splitAtFirst c t
      (a :: r.1, r.2)

/-- Split a list at the last occurrence of `c`.  Returns `none` when `c`
does not occur, otherwise the parts before and after the last `c`.
(Computed by splitting the reversed list at its first occurrence.) -/
def splitAtLast (c : Char) (l : JStr) : Option (JStr × JStr) :=
  match splitAtFirst c l.reverse with
  | (_, none) => none
  | (sufRev, some preRev) => some (preRev.reverse, sufRev.reverse)

/-- ASCII lowercasing, as applied by Node's url parser to protocol and host. -/
def lowerStr (l : JStr) : JStr := l.map Char.toLower

/-- Split a path on `'/'` into segments (empty segments preserved),
mirroring how Node's `path.posix` normalization walks separator-delimited
segments. -/
def splitOnSlash : JStr → List JStr
  | [] => [[]]
  | c :: rest =>
    if c = '/' then [] :: splitOnSlash rest
    else
      match splitOnSlash rest with
      | [] => [[c]]
      | s :: ss => (c :: s) :: ss

/-- One step of Node's `normalizeString` segment processing, on a stack of
already-emitted segments (head = most recent).  Empty and `"."` segments
are dropped; `".."` pops the previous segment unless the stack is empty or
its top is itself `".."`, in which case `".."` is kept only when
`allowAboveRoot` is set. -/
def normStep (allowAboveRoot : Bool) (acc : List JStr) (seg : JStr) : List JStr :=
  if seg = [] ∨ seg = ['.'] then acc
  else if seg = ['.', '.'] then
    match acc with
    | [] => if allowAboveRoot then [['.', '.']] else []
    | top :: rest =>
      if top = ['.', '.'] then
        (if allowAboveRoot then ['.', '.'] :: top :: rest else top :: rest)
      else rest
  else seg :: acc

/-- Node `path.posix` `normalizeString`: resolves `"."` and `".."` segments
and collapses separators; `allowAboveRoot` keeps leading `".."` segments
(used for relative results only). -/
def normalizeStr (allowAboveRoot : Bool) (p : JStr) : JStr :=
  List.intercalate ['/'] (((splitOnSlash p).foldl (normStep allowAboveRoot) []).reverse)

/-- The right-to-left accumulation loop of Node `path.posix.resolve`: paths
are prepended (joined by `'/'`) until one of them is absolute.  Takes the
candidate paths in right-to-left order.  Returns the accumulated path and
whether an absolute path was reached. -/
def resolveLoop (acc : JStr) : List JStr → JStr × Bool
  | [] => (acc, false)
  | p :: rest =>
    if p = [] then resolveLoop acc rest
    else
      let acc' := p ++ '/' :: acc
      if p.head? = some '/' then (acc', true) else resolveLoop acc' rest

/-- Node `path.posix.resolve(src, dst)`.  The process working directory
(consulted only when neither argument yields an absolute path) is passed
explicitly as `cwd`. -/
def posixResolve (cwd src dst : JStr) : JStr :=
  let r := resolveLoop [] [dst, src, cwd]
  let n := normalizeStr (!r.2) r.1
  if r.2 then '/' :: n
  else if n ≠ [] then n else ['.']

/-- Legacy-Node parsed URL object (the fields `getUrl` reads and writes). -/
structure UrlObj where
  protocol : Option JStr
  slashes : Bool
  auth : Option JStr
  host : Option JStr
  pathname : Option JStr
  search : Option JStr
  hash : Option JStr
  deriving Repr, DecidableEq

/-- Protocols that Node's url module treats as slashed (needing `//`). -/
def isSlashedProtocol (p : JStr) : Bool :=
  p = "http:".toList ∨ p = "https:".toList ∨ p = "ftp:".toList ∨
  p = "gopher:".toList ∨ p = "file:".toList ∨ p = "ws:".toList ∨ p = "wss:".toList

/-- Match the leading protocol of a URL string (Node's `/^[a-z0-9.+-]+:/i`),
returning the lowercased protocol (with `':'`) and the remainder. -/
def takeProtocol (l : JStr) : Option (JStr × JStr) :=
  let isProtoChar : Char → Bool := fun c =>
    c.isAlpha ∨ c.isDigit ∨ c = '.' ∨ c = '+' ∨ c = '-'
  let pre := l.takeWhile isProtoChar
  let rest := l.drop pre.length
  if pre ≠ [] ∧ rest.head? = some ':' then
    some (lowerStr pre ++ [':'], rest.drop 1)
  else none

/-- Node legacy `url.parse` (with `parseQueryString = false` and
`slashesDenoteHost = false`), modelled on the grammar the library
exercises: fragment split at the first `'#'`, query at the first `'?'`, an
optional protocol, an optional `//auth@host` authority (auth split at the
last `'@'`, host lowercased), and the remainder as pathname.  For a slashed
protocol with a host and no path the pathname defaults to `"/"`. -/
def urlParse (s : JStr) : UrlObj :=
  let h := splitAtFirst '#' s
  let hash := h.2.map ('#' :: ·)
  let q := splitAtFirst '?' h.1
  let search := q.2.map ('?' :: ·)
  let beforeQuery := q.1
  match takeProtocol beforeQuery with
  | some (proto, rest) =>
    if rest.take 2 = ['/', '/'] then
      let afterSlashes := rest.drop 2
      let ap := splitAtFirst '/' afterSlashes
      let authority := ap.1
      let (auth, host) :=
        match splitAtLast '@' authority with
        | some (a, hst) => (some a, hst)
        | none => (none, authority)
      let pathname : Option JStr :=
        match ap.2 with
        | some p => some ('/' :: p)
        | none => if isSlashedProtocol proto ∧ host ≠ [] then some ['/'] else none
      { protocol := some proto, slashes := true, auth := auth,
        host := some (lowerStr host), pathname := pathname,
        search := search, hash := hash }
    else
      { protocol := some proto, slashes := false, auth := none, host := none,
        pathname := if rest = [] then none else some rest,
        search := search, hash := hash }
  | none =>
    { protocol := none, slashes := false, auth := none, host := none,
      pathname := if beforeQuery = [] then none else some beforeQuery,
      search := search, hash := hash }

/-- Percent-escape `'#'` in the search part, as Node's `url.format` does. -/
def escapeHashes (l : JStr) : JStr :=
  l.flatMap fun c => if c = '#' then ['%', '2', '3'] else [c]

/-- Node legacy `url.format` on a parsed object: reassembles
`protocol // auth@host pathname search hash`; for slashed URLs the host is
prefixed with `//` and a relative pathname gains a leading `'/'`. -/
def urlFormat (u : UrlObj) : JStr :=
  let protocol := u.protocol.getD []
  let authPart := match u.auth with | some a => a ++ ['@'] | none => []
  let host0 : Option JStr := u.host.map (fun h => authPart ++ h)
  let pathname0 := u.pathname.getD []
  let slashed := u.slashes ∨ ((protocol = [] ∨ isSlashedProtocol protocol) ∧ host0.isSome)
  let host := if slashed then '/' :: '/' :: host0.getD [] else host0.getD []
  let pathname :=
    if slashed ∧ pathname0 ≠ [] ∧ pathname0.head? ≠ some '/' then '/' :: pathname0
    else pathname0
  let search := escapeHashes (u.search.getD [])
  protocol ++ host ++ pathname ++ search ++ u.hash.getD []

/-- JavaScript `a || b` on fields that hold strings or are absent: an
absent or empty value falls through to `b`. -/
def jsOr (a b : Option JStr) : Option JStr :=
  match a with
  | some v => if v = [] then b else some v
  | none => b

/-- Does the string end with `'/'`? (JS `str.endsWith('/')`.) -/
def endsWithSlash (l : JStr) : Bool := l.getLast? = some '/'

/-- Does the string end with `'?'`? (The regex `/\?$/` matches.) -/
def endsWithQuestion (l : JStr) : Bool := l.getLast? = some '?'

end JsUrl

namespace Util

open JsUrl

/-- The `resultantUrl` object built by `getUrl` in `lib/Util.ts` (lines
27–39): parse both strings, inherit `protocol`, `auth`, `host` from the
base wherever the resource's field is falsy, set `pathname` to
`path.posix.resolve(base.pathname, resultantUrl.pathname)`, and append a
`'/'` when the original resource string ends with `'/'` but the resolved
path does not.  `path.resolve` throws a `TypeError` when either `pathname`
is `null`, rendered here as `none`.  `cwd` is the process working
directory consulted by `path.resolve` (only when no absolute path
arises). -/
def mergedUrlObj (cwd resource baseUrl : JStr) : Option UrlObj :=
  let base := urlParse baseUrl
  let r := urlParse resource
  match base.pathname, r.pathname with
  | some basePath, some resourcePath =>
    let p0 := posixResolve cwd basePath resourcePath
    let p1 := if ¬ endsWithSlash p0 ∧ endsWithSlash resource then p0 ++ ['/'] else p0
    some { r with
            protocol := jsOr r.protocol base.protocol,
            auth := jsOr r.auth base.auth,
            host := jsOr r.host base.host,
            pathname := some p1 }
  | _, _ => none

/-- The URL-composition part of `Util.getUrl` (before query parameters):
a falsy (`undefined` or empty) base returns the resource unchanged, an
empty resource returns the base, and otherwise the parsed merge is
reformatted.  `none` models a thrown `TypeError`. -/
def getUrlCore (cwd resource : JStr) (baseUrl : Option JStr) : Option JStr :=
  match baseUrl with
  | none => some resource
  | some b =>
    if b = [] then some resource
    else if resource = [] then some b
    else (mergedUrlObj cwd resource b).map urlFormat

/-- Query parameters (`IRequestQueryParams`): an insertion-ordered
key→value mapping plus optional separator and assignment characters. -/
structure IRequestQueryParams where
  params : List (String × String)
  sep : Option String
  eq : Option String

/-- The options object consumed by `Util.getUrl` (`queryParameters`). -/
structure UtilRequestOptions where
  queryParameters : Option IRequestQueryParams

/-- One hexadecimal digit, uppercase (as produced by Node's query-string
escaping). -/
def hexDigit (n : Nat) : Char :=
  if n < 10 then Char.ofNat ('0'.toNat + n)
  else Char.ofNat ('A'.toNat + (n - 10))

/-- UTF-8 encoding of a Unicode code point. -/
def utf8Bytes (n : Nat) : List Nat :=
  if n < 0x80 then [n]
  else if n < 0x800 then [0xC0 + n / 64, 0x80 + n % 64]
  else if n < 0x10000 then [0xE0 + n / 4096, 0x80 + (n / 64) % 64, 0x80 + n % 64]
  else [0xF0 + n / 262144, 0x80 + (n / 4096) % 64, 0x80 + (n / 64) % 64, 0x80 + n % 64]

/-- Is `c` left unescaped by Node's `querystring.escape`
(alphanumerics plus `- _ . ! ~ * ' ( )`, as for `encodeURIComponent`)? -/
def qsUnescaped (c : Char) : Bool :=
  c.isAlphanum ∨ c = '-' ∨ c = '_' ∨ c = '.' ∨ c = '!' ∨ c = '~' ∨
  c = '*' ∨ c = '\'' ∨ c = '(' ∨ c = ')'

/-- Node `querystring.escape`: percent-encodes every character outside the
unescaped set, byte by byte of its UTF-8 encoding. -/
def qsEscape (l : JStr) : JStr :=
  l.flatMap fun c =>
    if qsUnescaped c then [c]
    else (utf8Bytes c.toNat).flatMap fun b => ['%', hexDigit (b / 16), hexDigit (b % 16)]

/-- JS `x || d` for the optional separator/assignment strings (absent or
empty falls back to the default). -/
def jsOrDefault (x : Option String) (d : JStr) : JStr :=
  match x with
  | some s => if s.toList = [] then d else s.toList
  | none => d

/-- Node `querystring.stringify(obj, sep, eq)` on a string-valued mapping:
escaped key, assignment string, escaped value, pairs joined by the
separator. -/
def queryStringStringify (params : List (String × String)) (sep eq : JStr) : JStr :=
  List.intercalate sep
    (params.map fun kv => qsEscape kv.1.toList ++ eq ++ qsEscape kv.2.toList)

/-- The function `Util.prepareUrlWithQueryParams` (lines 57–66 of `lib/Util.ts`):
strip a single trailing `'?'` (the regex `/\?$/g`), then append `'?'` and
the serialized mapping. -/
def prepareUrlWithQueryParams (requestUrl : JStr) (qp : IRequestQueryParams) : JStr :=
  let url := if endsWithQuestion requestUrl then requestUrl.dropLast else requestUrl
  let parsedQueryParams :=
    queryStringStringify qp.params (jsOrDefault qp.sep ['&']) (jsOrDefault qp.eq ['='])
  url ++ '?' :: parsedQueryParams

/-- The function `Util.getUrl` in full (lines 16–49 of `lib/Util.ts`): URL composition
followed by optional query-parameter attachment. -/
def getUrlL (cwd resource : JStr) (baseUrl : Option JStr)
    (options : Option UtilRequestOptions) : Option JStr :=
  (getUrlCore cwd resource baseUrl).map fun requestUrl =>
    match options with
    | some o =>
      match o.queryParameters with
      | some qp => prepareUrlWithQueryParams requestUrl qp
      | none => requestUrl
    | none => requestUrl

/-- The function `Util.getUrl` at the `String` boundary. -/
def getUrl (cwd resource : String) (baseUrl : Option String)
    (options : Option UtilRequestOptions) : Option String :=
  (getUrlL cwd.toList resource.toList (baseUrl.map String.toList) options).map String.mk

end Util

/-- A JavaScript value produced by `JSON.parse` (JSON numbers are modelled
as integers; no claim involves fractional values), extended with the date
objects produced by the JSON content handler's reviver. -/
inductive JVal where
  | null : JVal
  | bool (b : Bool) : JVal
  | num (n : Int) : JVal
  | str (s : String) : JVal
  | arr (elems : List JVal) : JVal
  | obj (fields : List (String × JVal)) : JVal
  | date (ms : Int) : JVal
  deriving Repr

namespace JVal

/-- JavaScript truthiness of a `JVal`: `null`, `false`, `0` and `""` are
falsy; every object (arrays, plain objects, dates) is truthy. -/
def truthy : JVal → Bool
  | .null => false
  | .bool b => b
  | .num n => n ≠ 0
  | .str s => s ≠ ""
  | .arr _ => true
  | .obj _ => true
  | .date _ => true

/-- JavaScript property access `v[key]` on a JSON value: defined fields of
plain objects; `undefined` (here `none`) everywhere else. -/
def getProp (v : JVal) (key : String) : Option JVal :=
  match v with
  | .obj fields => (fields.find? fun kv => kv.1 = key).map fun kv => kv.2
  | _ => none

mutual

/-- JavaScript `String(v)` coercion on JSON-representable values (as the
`Error` constructor applies to its message argument). -/
def jsToString : JVal → String
  | .null => "null"
  | .bool b => if b then "true" else "false"
  | .num n => toString n
  | .str s => s
  | .arr elems => String.intercalate "," (jsToStringElems elems)
  | .obj _ => "[object Object]"
  | .date ms => toString ms

/-- Array elements stringify like `Array.prototype.join`: `null` becomes
the empty string. -/
def jsToStringElems : List JVal → List String
  | [] => []
  | .null :: vs => "" :: jsToStringElems vs
  | v :: vs => jsToString v :: jsToStringElems vs

end

end JVal

namespace RestClient

/-- The typed response object (`IRestResponse<T>`): the payload is `none`
when the source leaves `result` unset. -/
structure IRestResponse where
  statusCode : Nat
  result : Option JVal
  deriving Repr

/-- The `Error` object built by `_processResponse` for non-success status
codes, with the `statusCode` and optional `result` fields it attaches. -/
structure RestError where
  message : String
  statusCode : Nat
  result : Option JVal
  deriving Repr

/-- The caller-supplied `responseProcessor` applied to the parsed body when
present (`rres.result = options.responseProcessor(obj)` versus
`rres.result = obj`). -/
def applyProcessor (rp : Option (JVal → JVal)) (obj : JVal) : JVal :=
  match rp with
  | some f => f obj
  | none => obj

/-- The generic error message `` `Failed request: (${statusCode})` ``. -/
def failedRequestMsg (statusCode : Nat) : String :=
  "Failed request: (" ++ toString statusCode ++ ")"

/-- The method `RestClient._processResponse` (lines 181–235 of `lib/RestClient.ts`),
with `JSON.parse` passed in as `jsonParse` (`none` models a thrown
`SyntaxError`).  The promise executor settles at most once and the first
settlement wins: a 404 resolves immediately with only `statusCode` set
(the settled value snapshots the response object as the caller observes it
at resolution), and the later `reject` for status `> 299` is then a no-op.
Otherwise the body is read and, when non-empty and parseable, stored in
`result` (body-parse failures are swallowed); a status `> 299` rejects
with an error whose message is the parsed body's truthy `message` property
when available (`obj && obj.message`) and the generic message otherwise,
and which carries the parsed result only when truthy (`if (rres.result)`);
any other status resolves. -/
def processResponse (jsonParse : String → Option JVal)
    (responseProcessor : Option (JVal → JVal))
    (statusCode : Nat) (contents : String) : Except RestError IRestResponse :=
  if statusCode = 404 then
    .ok { statusCode := statusCode, result := none }
  else
    let obj : Option JVal := if contents ≠ "" then jsonParse contents else none
    let result : Option JVal := obj.map (applyProcessor responseProcessor)
    if statusCode > 299 then
      let msg : String :=
        match obj with
        | some o =>
          if o.truthy then
            match o.getProp "message" with
            | some m => if m.truthy then m.jsToString else failedRequestMsg statusCode
            | none => failedRequestMsg statusCode
          else failedRequestMsg statusCode
        | none => failedRequestMsg statusCode
      let errResult : Option JVal :=
        match result with
        | some r => if r.truthy then some r else none
        | none => none
      .error { message := msg, statusCode := statusCode, result := errResult }
    else
      .ok { statusCode := statusCode, result := result }

/-- A raw transport response: status code plus the text that `readBody`
yields. -/
structure HttpResp where
  statusCode : Nat
  body : String

/-- The transport collaborator (`HttpClient`) verb methods used by the
REST façade.  Header plumbing is elided: no claim concerns headers. -/
structure HttpClientModel where
  options : String → HttpResp
  get : String → HttpResp
  del : String → HttpResp
  post : String → String → HttpResp
  patch : String → String → HttpResp
  put : String → String → HttpResp
  sendStream : String → String → HttpResp

/-- A `RestClient` instance: its transport and optional base URL. -/
structure RestClientModel where
  client : HttpClientModel
  baseUrl : Option String

/-- The verb `RestClient.options`: resolve the URL, issue the verb, process the
response.  `none` models a `TypeError` escaping from `Util.getUrl`. -/
def optionsVerb (cwd : String) (c : RestClientModel)
    (jsonParse : String → Option JVal) (rp : Option (JVal → JVal))
    (requestUrl : String) : Option (Except RestError IRestResponse) :=
  (Util.getUrl cwd requestUrl c.baseUrl none).map fun u =>
    processResponse jsonParse rp (c.client.options u).statusCode (c.client.options u).body

/-- The verb `RestClient.get`. -/
def getVerb (cwd : String) (c : RestClientModel)
    (jsonParse : String → Option JVal) (rp : Option (JVal → JVal))
    (resource : String) : Option (Except RestError IRestResponse) :=
  (Util.getUrl cwd resource c.baseUrl none).map fun u =>
    processResponse jsonParse rp (c.client.get u).statusCode (c.client.get u).body

/-- The verb `RestClient.del`. -/
def delVerb (cwd : String) (c : RestClientModel)
    (jsonParse : String → Option JVal) (rp : Option (JVal → JVal))
    (resource : String) : Option (Except RestError IRestResponse) :=
  (Util.getUrl cwd resource c.baseUrl none).map fun u =>
    processResponse jsonParse rp (c.client.del u).statusCode (c.client.del u).body

/-- The verb `RestClient.create` (POST).  Here `jsonStringify` models
`JSON.stringify(resources, null, 2)`. -/
def createVerb (cwd : String) (c : RestClientModel)
    (jsonParse : String → Option JVal) (jsonStringify : JVal → String)
    (rp : Option (JVal → JVal)) (resource : String) (resources : JVal) :
    Option (Except RestError IRestResponse) :=
  (Util.getUrl cwd resource c.baseUrl none).map fun u =>
    let res := c.client.post u (jsonStringify resources)
    processResponse jsonParse rp res.statusCode res.body

/-- The verb `RestClient.update` (PATCH). -/
def updateVerb (cwd : String) (c : RestClientModel)
    (jsonParse : String → Option JVal) (jsonStringify : JVal → String)
    (rp : Option (JVal → JVal)) (resource : String) (resources : JVal) :
    Option (Except RestError IRestResponse) :=
  (Util.getUrl cwd resource c.baseUrl none).map fun u =>
    let res := c.client.patch u (jsonStringify resources)
    processResponse jsonParse rp res.statusCode res.body

/-- The verb `RestClient.replace` (PUT). -/
def replaceVerb (cwd : String) (c : RestClientModel)
    (jsonParse : String → Option JVal) (jsonStringify : JVal → String)
    (rp : Option (JVal → JVal)) (resource : String) (resources : JVal) :
    Option (Except RestError IRestResponse) :=
  (Util.getUrl cwd resource c.baseUrl none).map fun u =>
    let res := c.client.put u (jsonStringify resources)
    processResponse jsonParse rp res.statusCode res.body

/-- The verb `RestClient.uploadStream`. -/
def uploadStreamVerb (cwd : String) (c : RestClientModel)
    (jsonParse : String → Option JVal) (rp : Option (JVal → JVal))
    (verb requestUrl : String) : Option (Except RestError IRestResponse) :=
  (Util.getUrl cwd requestUrl c.baseUrl none).map fun u =>
    let res := c.client.sendStream verb u
    processResponse jsonParse rp res.statusCode res.body

end RestClient

namespace JsonHandler

mutual

/-- The bottom-up traversal `JSON.parse(contents, reviver)` performs: the
reviver `f` is applied to every value, children first.  (The handler's
reviver never returns `undefined`, so no property deletion arises.) -/
def deepMap (f : JVal → JVal) : JVal → JVal
  | .arr elems => f (.arr (deepMapElems f elems))
  | .obj fields => f (.obj (deepMapFields f fields))
  | v => f v

def deepMapElems (f : JVal → JVal) : List JVal → List JVal
  | [] => []
  | v :: vs => deepMap f v :: deepMapElems f vs

def deepMapFields (f : JVal → JVal) : List (String × JVal) → List (String × JVal)
  | [] => []
  | (k, v) :: fs => (k, deepMap f v) :: deepMapFields f fs

end

/-- The reviver `DefaultJsonHandler.dateTimeDeserializer`: a string value becomes a
date when `new Date(value)` is valid, and is otherwise returned unchanged;
non-string values are returned unchanged.  `dateParse` models the JS
`Date` string constructor: `some ms` exactly when `new Date(s)` is a valid
date with value `ms`. -/
def dateTimeDeserializer (dateParse : String → Option Int) : JVal → JVal
  | .str s =>
    match dateParse s with
    | some ms => .date ms
    | none => .str s
  | v => v

/-- The method `DefaultJsonHandler.handle(contents)`: `JSON.parse` with the
date-reviving reviver when `deserializeDates` was set at construction, and
plain `JSON.parse` otherwise.  `jsonParse` models `JSON.parse`
(`none` = thrown `SyntaxError`, rendered as `none` overall). -/
def handle (jsonParse : String → Option JVal) (dateParse : String → Option Int)
    (deserializeDates : Bool) (contents : String) : Option JVal :=
  if deserializeDates then
    (jsonParse contents).map (deepMap (dateTimeDeserializer dateParse))
  else
    jsonParse contents

/-- First index at which `needle` occurs as a contiguous subsequence of
`hay`, or `none`. -/
def idxOfSub (needle : JStr) : JStr → Option Nat
  | [] => if needle.isPrefixOf [] then some 0 else none
  | a :: t =>
    if needle.isPrefixOf (a :: t) then some 0
    else (idxOfSub needle t).map (· + 1)

/-- JavaScript `hay.indexOf(needle)` for strings: the first match index,
or `-1`. -/
def jsIndexOf (hay needle : String) : Int :=
  match idxOfSub needle.toList hay.toList with
  | some i => (i : Int)
  | none => -1

/-- JavaScript property lookup on a headers object, modelled as an
association list: `none` is `undefined`. -/
def lookupHeader (headers : List (String × String)) (key : String) : Option String :=
  (headers.find? fun kv => kv.1 = key).map fun kv => kv.2

/-- The method `DefaultJsonHandler.canHandle(response)`:
`response.message.headers["content-type"].indexOf('application/json') > -1`.
When the header is absent the property access yields `undefined` and the
`indexOf` call throws a `TypeError`, rendered as `none`; otherwise the
boolean is returned. -/
def canHandle (headers : List (String × String)) : Option Bool :=
  (lookupHeader headers "content-type").map fun v =>
    decide (jsIndexOf v "application/json" > -1)

end JsonHandler

namespace Dispatcher

/-- A wire-level response as seen by the Dispatcher's challenge logic. -/
structure WireResponse where
  statusCode : Nat
  body : String
  deriving Repr, DecidableEq

/-- A credential handler's challenge interface: whether it recognizes an
authentication challenge, and the final response its single
challenge round-trip produces. -/
structure CredentialHandler where
  canHandleAuthentication : WireResponse → Bool
  handleAuthentication : WireResponse → WireResponse

/-- Observable dispatch events: the initial send and the (at most one)
authentication challenge round-trip. -/
inductive DispatchEvent where
  | send : DispatchEvent
  | authRoundTrip : DispatchEvent
  deriving Repr, DecidableEq

/-- Modelled from the spec: the Request Dispatcher of `HttpClient.ts`,
which is not under `src/` (only the spec §4.4/§6 and its tests describe
it).  The request is sent once, producing `wire`; if the status is 401 the
first handler (registration order, first-match-wins) reporting
`canHandleAuthentication(response) == true` runs its single
`handleAuthentication` round-trip and its result is final; otherwise the
response is returned as-is.  No other retry exists.  The returned event
list records the sends performed. -/
def dispatch (handlers : List CredentialHandler) (wire : WireResponse) :
    WireResponse × List DispatchEvent :=
  if wire.statusCode = 401 then
    match handlers.find? (fun h => h.canHandleAuthentication wire) with
    | some h => (h.handleAuthentication wire, [.send, .authRoundTrip])
    | none => (wire, [.send])
  else (wire, [.send])

end Dispatcher

namespace JsUrl

theorem splitOnSlash_ne_nil (l : JStr) : splitOnSlash l ≠ [] := by
  cases l with
  | nil => simp [splitOnSlash]
  | cons c rest =>
    by_cases hc : c = '/'
    · simp [splitOnSlash, hc]
    · simp only [splitOnSlash, hc, if_false, reduceIte]
      split <;> simp

theorem splitOnSlash_append_slash (l : JStr) :
    splitOnSlash (l ++ ['/']) = splitOnSlash l ++ [[]] := by
  induction l with
  | nil => simp [splitOnSlash]
  | cons c rest ih =>
    by_cases hc : c = '/'
    · simp [splitOnSlash, hc, ih]
    · cases hsp : splitOnSlash rest with
      | nil => exact absurd hsp (splitOnSlash_ne_nil rest)
      | cons s ss => simp [splitOnSlash, hc, ih, hsp]

theorem normalizeStr_append_slash (allow : Bool) (l : JStr) :
    normalizeStr allow (l ++ ['/']) = normalizeStr allow l := by
  simp [normalizeStr, splitOnSlash_append_slash, List.foldl_append, normStep]

theorem posixResolve_absolute (cwd src dst : JStr) (h : dst.head? = some '/') :
    posixResolve cwd src dst = '/' :: normalizeStr false dst := by
  cases dst with
  | nil => simp at h
  | cons a t =>
    simp only [List.head?_cons, Option.some.injEq] at h
    subst h
    simp [posixResolve, resolveLoop]
    have := normalizeStr_append_slash false ('/' :: t)
    simpa using this

theorem posixResolve_relative (cwd src dst : JStr) (hsrc : src.head? = some '/')
    (hne : dst ≠ []) (hd : dst.head? ≠ some '/') :
    posixResolve cwd src dst = '/' :: normalizeStr false (src ++ '/' :: dst) := by
  cases src with
  | nil => simp at hsrc
  | cons a s =>
    simp only [List.head?_cons, Option.some.injEq] at hsrc
    subst hsrc
    cases dst with
    | nil => exact absurd rfl hne
    | cons b t =>
      simp only [List.head?_cons, ne_eq, Option.some.injEq] at hd
      have h1 : resolveLoop [] [b :: t, '/' :: s, cwd] =
          (('/' :: s) ++ '/' :: ((b :: t) ++ '/' :: []), true) := by
        simp [resolveLoop, hd]
      have h2 : ('/' :: s) ++ '/' :: ((b :: t) ++ '/' :: []) =
          (('/' :: s) ++ '/' :: (b :: t)) ++ ['/'] := by simp
      simp only [posixResolve, h1, h2, if_pos, Bool.not_true,
        normalizeStr_append_slash]

end JsUrl

/-- C1: for parsed resource and base URLs, `getUrl` computes the result
path as the POSIX-style resolution of the base path against the resource
path: the merged object's pathname is `path.posix.resolve(basePath,
resourcePath)` (stated here for resources not ending in `'/'`, where no
trailing-slash fix-up applies); an absolute resource path replaces the
base path entirely (the result is the normalization of the resource path
alone, independent of base and working directory); a relative resource
path is appended to the base path and the joined path is normalized
(resolving `'.'` and `'..'` segments); and in particular
`getUrl("/get/foo", "http://host/bar") = "http://host/get/foo"` and
`getUrl("get/foo", "http://host/bar") = "http://host/bar/get/foo"`. -/
theorem C1_getUrl_posix_path_resolution :
    (∀ cwd resource b u basePath resourcePath,
      Util.mergedUrlObj cwd resource b = some u →
      (JsUrl.urlParse b).pathname = some basePath →
      (JsUrl.urlParse resource).pathname = some resourcePath →
      JsUrl.endsWithSlash resource = false →
      u.pathname = some (JsUrl.posixResolve cwd basePath resourcePath))
    ∧ (∀ cwd cwd' basePath basePath' resourcePath, resourcePath.head? = some '/' →
      JsUrl.posixResolve cwd basePath resourcePath =
        JsUrl.posixResolve cwd' basePath' resourcePath)
    ∧ (∀ cwd basePath resourcePath, resourcePath.head? = some '/' →
      JsUrl.posixResolve cwd basePath resourcePath =
        '/' :: JsUrl.normalizeStr false resourcePath)
    ∧ (∀ cwd basePath resourcePath, basePath.head? = some '/' →
      resourcePath ≠ [] → resourcePath.head? ≠ some '/' →
      JsUrl.posixResolve cwd basePath resourcePath =
        '/' :: JsUrl.normalizeStr false (basePath ++ '/' :: resourcePath))
    ∧ Util.getUrl "/" "/get/foo" (some "http://host/bar") none = some "http://host/get/foo"
    ∧ Util.getUrl "/" "get/foo" (some "http://host/bar") none = some "http://host/bar/get/foo"
    ∧ Util.getUrl "/" "../foo" (some "http://host/bar/baz") none = some "http://host/bar/foo"
    ∧ Util.getUrl "/" "./foo" (some "http://host/bar") none = some "http://host/bar/foo" := by
  refine ⟨?_, ?_, ?_, ?_, by decide, by decide, by decide, by decide⟩
  · intro cwd resource b u basePath resourcePath hm hb hr hslash
    simp only [Util.mergedUrlObj, hb, hr, hslash, Bool.false_eq_true, and_false,
      ite_false, reduceIte, Option.some.injEq] at hm
    subst hm
    rfl
  · intro cwd cwd' basePath basePath' resourcePath h
    rw [JsUrl.posixResolve_absolute cwd basePath resourcePath h,
      JsUrl.posixResolve_absolute cwd' basePath' resourcePath h]
  · exact fun cwd basePath resourcePath h =>
      JsUrl.posixResolve_absolute cwd basePath resourcePath h
  · exact fun cwd basePath resourcePath hb hne hd =>
      JsUrl.posixResolve_relative cwd basePath resourcePath hb hne hd

/-- Witness for C1 at concrete inputs: the hypotheses hold and the
conclusions evaluate. -/
theorem C1_getUrl_posix_path_resolution_witness :
    ("/get".toList.head? = some '/') ∧
    JsUrl.posixResolve "/w".toList "/b".toList "/get".toList =
      JsUrl.posixResolve "/q".toList "/c".toList "/get".toList := by
  exact ⟨by decide,
    C1_getUrl_posix_path_resolution.2.1 "/w".toList "/b".toList "/q".toList "/c".toList
      "/get".toList (by decide)⟩

/-- Counterexample to C2 as stated: for resource `"get/foo"` (whose query
component is empty) and base `"http://host/bar?x=1"` (whose query
component is `"?x=1"`), the merged result's query component is absent
rather than filled verbatim from the base — `getUrl` copies only
`protocol`, `auth` and `host` from the base, and the base's query is
discarded. -/
theorem C2_counterexample :
    (JsUrl.urlParse "get/foo".toList).search = none
    ∧ (JsUrl.urlParse "http://host/bar?x=1".toList).search = some "?x=1".toList
    ∧ (Util.mergedUrlObj "/".toList "get/foo".toList "http://host/bar?x=1".toList).map
        (fun u => u.search) = some none
    ∧ Util.getUrl "/" "get/foo" (some "http://host/bar?x=1") none =
        some "http://host/bar/get/foo" := by
  refine ⟨by decide, by decide, by decide, by decide⟩

/-- C2 amended: in the merged result of `getUrl`, the `protocol`, `auth`
and `host` components are each taken from the parsed resource when
present (non-empty) there, and are otherwise filled verbatim from the
parsed base; the query and fragment components are taken from the parsed
resource alone (the base's query and fragment are discarded even when the
resource's are empty). -/
theorem C2_component_merge_amended :
    ∀ cwd resource b u, Util.mergedUrlObj cwd resource b = some u →
      u.protocol = JsUrl.jsOr (JsUrl.urlParse resource).protocol (JsUrl.urlParse b).protocol
      ∧ u.auth = JsUrl.jsOr (JsUrl.urlParse resource).auth (JsUrl.urlParse b).auth
      ∧ u.host = JsUrl.jsOr (JsUrl.urlParse resource).host (JsUrl.urlParse b).host
      ∧ u.search = (JsUrl.urlParse resource).search
      ∧ u.hash = (JsUrl.urlParse resource).hash := by
  intro cwd resource b u hm
  simp only [Util.mergedUrlObj] at hm
  cases hb : (JsUrl.urlParse b).pathname with
  | none => rw [hb] at hm; simp at hm
  | some basePath =>
    cases hr : (JsUrl.urlParse resource).pathname with
    | none => rw [hb, hr] at hm; simp at hm
    | some resourcePath =>
      rw [hb, hr] at hm
      simp only [Option.some.injEq] at hm
      subst hm
      exact ⟨rfl, rfl, rfl, rfl, rfl⟩

/-- Witness for C2's amended theorem at a concrete input. -/
theorem C2_component_merge_amended_witness :
    (Util.mergedUrlObj "/".toList "get/foo".toList "http://u:p@host/bar?x=1#f".toList).map
        (fun u => u.protocol) = some (JsUrl.jsOr
          (JsUrl.urlParse "get/foo".toList).protocol
          (JsUrl.urlParse "http://u:p@host/bar?x=1#f".toList).protocol) := by
  cases hm : Util.mergedUrlObj "/".toList "get/foo".toList "http://u:p@host/bar?x=1#f".toList with
  | none => exact absurd hm (by decide)
  | some u =>
    have h := (C2_component_merge_amended "/".toList "get/foo".toList
      "http://u:p@host/bar?x=1#f".toList u hm).1
    simp [h]

/-- C3: when the original resource string ends with `'/'` and the resolved
path does not, `getUrl` appends exactly one `'/'` to the merged pathname;
in every other case the resolved path is kept unchanged. -/
theorem C3_trailing_slash :
    ∀ cwd resource b u basePath resourcePath,
      Util.mergedUrlObj cwd resource b = some u →
      (JsUrl.urlParse b).pathname = some basePath →
      (JsUrl.urlParse resource).pathname = some resourcePath →
      u.pathname = some (
        if ¬ JsUrl.endsWithSlash (JsUrl.posixResolve cwd basePath resourcePath)
            ∧ JsUrl.endsWithSlash resource
        then JsUrl.posixResolve cwd basePath resourcePath ++ ['/']
        else JsUrl.posixResolve cwd basePath resourcePath) := by
  intro cwd resource b u basePath resourcePath hm hb hr
  simp only [Util.mergedUrlObj, hb, hr, Option.some.injEq] at hm
  subst hm
  rfl

/-- Witness for C3 at a concrete input: resource `"get/foo/"` against base
`"http://host/bar"` gains the trailing separator. -/
theorem C3_trailing_slash_witness :
    (Util.mergedUrlObj "/".toList "get/foo/".toList "http://host/bar".toList).map
        (fun u => u.pathname) = some (some "/bar/get/foo/".toList) := by
  cases hm : Util.mergedUrlObj "/".toList "get/foo/".toList "http://host/bar".toList with
  | none => exact absurd hm (by decide)
  | some u =>
    have h := C3_trailing_slash "/".toList "get/foo/".toList "http://host/bar".toList u
      "/bar".toList "get/foo/".toList hm (by decide) (by decide)
    simp only [Option.map_some', Option.some.injEq]
    rw [h]
    decide

namespace RestClient

/-- A 404 settles the promise first, with only `statusCode` assigned. -/
theorem processResponse_notfound (jsonParse : String → Option JVal)
    (rp : Option (JVal → JVal)) (contents : String) :
    processResponse jsonParse rp 404 contents =
      .ok { statusCode := 404, result := none } := by
  simp [processResponse]

end RestClient

/-- C4: every response with status code 404 makes `_processResponse` — and
hence every REST verb (`options`, `get`, `del`, `create`, `update`,
`replace`, `uploadStream`), each of which delegates its response to
`_processResponse` — resolve successfully with `statusCode = 404` and an
absent (null) payload, raising no error. -/
theorem C4_notfound_resolves :
    (∀ jsonParse rp contents,
      RestClient.processResponse jsonParse rp 404 contents =
        .ok { statusCode := 404, result := none })
    ∧ (∀ cwd c jsonParse rp requestUrl u,
        Util.getUrl cwd requestUrl c.baseUrl none = some u →
        ((RestClient.RestClientModel.client c).options u).statusCode = 404 →
        RestClient.optionsVerb cwd c jsonParse rp requestUrl =
          some (.ok { statusCode := 404, result := none }))
    ∧ (∀ cwd c jsonParse rp resource u,
        Util.getUrl cwd resource c.baseUrl none = some u →
        ((RestClient.RestClientModel.client c).get u).statusCode = 404 →
        RestClient.getVerb cwd c jsonParse rp resource =
          some (.ok { statusCode := 404, result := none }))
    ∧ (∀ cwd c jsonParse rp resource u,
        Util.getUrl cwd resource c.baseUrl none = some u →
        ((RestClient.RestClientModel.client c).del u).statusCode = 404 →
        RestClient.delVerb cwd c jsonParse rp resource =
          some (.ok { statusCode := 404, result := none }))
    ∧ (∀ cwd c jsonParse jsonStringify rp resource resources u,
        Util.getUrl cwd resource c.baseUrl none = some u →
        ((RestClient.RestClientModel.client c).post u (jsonStringify resources)).statusCode = 404 →
        RestClient.createVerb cwd c jsonParse jsonStringify rp resource resources =
          some (.ok { statusCode := 404, result := none }))
    ∧ (∀ cwd c jsonParse jsonStringify rp resource resources u,
        Util.getUrl cwd resource c.baseUrl none = some u →
        ((RestClient.RestClientModel.client c).patch u (jsonStringify resources)).statusCode = 404 →
        RestClient.updateVerb cwd c jsonParse jsonStringify rp resource resources =
          some (.ok { statusCode := 404, result := none }))
    ∧ (∀ cwd c jsonParse jsonStringify rp resource resources u,
        Util.getUrl cwd resource c.baseUrl none = some u →
        ((RestClient.RestClientModel.client c).put u (jsonStringify resources)).statusCode = 404 →
        RestClient.replaceVerb cwd c jsonParse jsonStringify rp resource resources =
          some (.ok { statusCode := 404, result := none }))
    ∧ (∀ cwd c jsonParse rp verb requestUrl u,
        Util.getUrl cwd requestUrl c.baseUrl none = some u →
        ((RestClient.RestClientModel.client c).sendStream verb u).statusCode = 404 →
        RestClient.uploadStreamVerb cwd c jsonParse rp verb requestUrl =
          some (.ok { statusCode := 404, result := none })) := by
  refine ⟨RestClient.processResponse_notfound, ?_, ?_, ?_, ?_, ?_, ?_, ?_⟩
  · intro cwd c jsonParse rp requestUrl u hu h404
    simp only [RestClient.optionsVerb, hu, Option.map_some', h404,
      RestClient.processResponse_notfound]
  · intro cwd c jsonParse rp resource u hu h404
    simp only [RestClient.getVerb, hu, Option.map_some', h404,
      RestClient.processResponse_notfound]
  · intro cwd c jsonParse rp resource u hu h404
    simp only [RestClient.delVerb, hu, Option.map_some', h404,
      RestClient.processResponse_notfound]
  · intro cwd c jsonParse jsonStringify rp resource resources u hu h404
    simp only [RestClient.createVerb, hu, Option.map_some', h404,
      RestClient.processResponse_notfound]
  · intro cwd c jsonParse jsonStringify rp resource resources u hu h404
    simp only [RestClient.updateVerb, hu, Option.map_some', h404,
      RestClient.processResponse_notfound]
  · intro cwd c jsonParse jsonStringify rp resource resources u hu h404
    simp only [RestClient.replaceVerb, hu, Option.map_some', h404,
      RestClient.processResponse_notfound]
  · intro cwd c jsonParse rp verb requestUrl u hu h404
    simp only [RestClient.uploadStreamVerb, hu, Option.map_some', h404,
      RestClient.processResponse_notfound]

/-- A transport whose every verb answers 404 with an empty body. -/
def demoClient404 : RestClient.HttpClientModel :=
  { options := fun _ => ⟨404, ""⟩, get := fun _ => ⟨404, ""⟩, del := fun _ => ⟨404, ""⟩,
    post := fun _ _ => ⟨404, ""⟩, patch := fun _ _ => ⟨404, ""⟩, put := fun _ _ => ⟨404, ""⟩,
    sendStream := fun _ _ => ⟨404, ""⟩ }

/-- A REST client over `demoClient404` with no base URL. -/
def demoRest404 : RestClient.RestClientModel := ⟨demoClient404, none⟩

/-- Witness for C4 at concrete inputs: a 404 transport makes `get` and
`create` resolve with a null payload. -/
theorem C4_notfound_resolves_witness :
    RestClient.getVerb "/" demoRest404 (fun _ => none) none "http://host/a" =
      some (.ok { statusCode := 404, result := none })
    ∧ RestClient.createVerb "/" demoRest404 (fun _ => none) (fun _ => "") none
        "http://host/a" .null =
      some (.ok { statusCode := 404, result := none }) := by
  constructor
  · exact C4_notfound_resolves.2.2.1 "/" demoRest404 (fun _ => none) none
      "http://host/a" "http://host/a" (by decide) rfl
  · exact C4_notfound_resolves.2.2.2.2.1 "/" demoRest404 (fun _ => none) (fun _ => "") none
      "http://host/a" .null "http://host/a" (by decide) rfl

/-- The literal body `{"message": ""}`. -/
def bodyEmptyMessage : String := "\x7b\"message\": \"\"\x7d"

/-- The literal body `{"message": "boom"}`. -/
def bodyBoomMessage : String := "\x7b\"message\": \"boom\"\x7d"

/-- A concrete instance of `JSON.parse`'s behaviour on the handful of
strings used by witnesses (each equation matches what `JSON.parse` returns
on that string; every other string is treated as a parse failure). -/
def jsonParseDemo : String → Option JVal := fun s =>
  if s = bodyEmptyMessage then some (.obj [("message", .str "")])
  else if s = bodyBoomMessage then some (.obj [("message", .str "boom")])
  else if s = "0" then some (.num 0)
  else if s = "\"2020-01-01T00:00:00.000Z\"" then some (.str "2020-01-01T00:00:00.000Z")
  else none


/-- Counterexample to C5 as stated: with status 500 and body
`{"message": ""}` — a JSON body containing a `message` field — the raised
error's message is the generic `"Failed request: (500)"`, not the body's
(empty, hence falsy) `message`; and with body `"0"`, which parses to the
falsy value `0`, the parsed body is not attached as the error's `result`.
The source guards both on JS truthiness (`obj && obj.message`,
`if (rres.result)`). -/
theorem C5_counterexample :
    jsonParseDemo bodyEmptyMessage = some (.obj [("message", .str "")])
    ∧ RestClient.processResponse jsonParseDemo none 500 bodyEmptyMessage =
        .error { message := RestClient.failedRequestMsg 500, statusCode := 500,
                 result := some (.obj [("message", .str "")]) }
    ∧ RestClient.failedRequestMsg 500 ≠ ""
    ∧ jsonParseDemo "0" = some (.num 0)
    ∧ RestClient.processResponse jsonParseDemo none 500 "0" =
        .error { message := RestClient.failedRequestMsg 500, statusCode := 500,
                 result := none } := by
  exact ⟨rfl, rfl, by decide, rfl, rfl⟩

/-- C5 amended: for status `> 299` other than 404 the façade rejects with
an error that carries the status code; the error's message equals the
body's `message` field (coerced to a string) when the body parsed as JSON
to a truthy value with a truthy `message` property, and is the generic
`"Failed request: (<code>)"` otherwise (including when `message` is
present but falsy, e.g. the empty string); the parsed (processed) body is
attached as the error's `result` field only when that value is truthy. -/
theorem C5_error_mapping_amended :
    ∀ jsonParse rp statusCode contents, statusCode > 299 → statusCode ≠ 404 →
      ∃ e, RestClient.processResponse jsonParse rp statusCode contents = .error e
        ∧ e.statusCode = statusCode
        ∧ ((contents = "" ∨ jsonParse contents = none) →
            e.message = RestClient.failedRequestMsg statusCode ∧ e.result = none)
        ∧ (∀ o, contents ≠ "" → jsonParse contents = some o →
            e.message = (if o.truthy then
                match o.getProp "message" with
                | some m => if m.truthy then m.jsToString
                            else RestClient.failedRequestMsg statusCode
                | none => RestClient.failedRequestMsg statusCode
              else RestClient.failedRequestMsg statusCode)
            ∧ e.result = (if (RestClient.applyProcessor rp o).truthy
                then some (RestClient.applyProcessor rp o) else none)) := by
  intro jsonParse rp statusCode contents hgt h404
  simp only [RestClient.processResponse, if_neg h404, if_pos hgt]
  refine ⟨_, rfl, rfl, ?_, ?_⟩
  · intro h
    rcases h with hc | hp
    · simp [hc]
    · by_cases hc : contents = ""
      · simp [hc]
      · simp [hc, hp]
  · intro o hc ho
    simp [hc, ho]

/-- Witness for C5's amended theorem: status 500 with body
`{"message": "boom"}` rejects with message `"boom"`. -/
theorem C5_error_mapping_amended_witness :
    ∃ e, RestClient.processResponse jsonParseDemo none 500 bodyBoomMessage = .error e
      ∧ e.statusCode = 500
      ∧ e.message = "boom" := by
  obtain ⟨e, he, hsc, -, hmsg⟩ :=
    C5_error_mapping_amended jsonParseDemo none 500 bodyBoomMessage (by decide) (by decide)
  refine ⟨e, he, hsc, ?_⟩
  have h := hmsg (.obj [("message", .str "boom")]) (by decide) rfl
  rw [h.1]
  rfl

/-- C6: a response with status at most 299 whose non-empty body fails to
parse as JSON resolves successfully with the status code and an absent
result; the parse failure is swallowed and no error surfaces. -/
theorem C6_parse_failure_swallowed :
    ∀ jsonParse rp statusCode contents, statusCode ≤ 299 → contents ≠ "" →
      jsonParse contents = none →
      RestClient.processResponse jsonParse rp statusCode contents =
        .ok { statusCode := statusCode, result := none } := by
  intro jsonParse rp statusCode contents hle hc hp
  have h404 : statusCode ≠ 404 := by omega
  have hgt : ¬ statusCode > 299 := by omega
  simp [RestClient.processResponse, if_neg h404, if_neg hgt, hc, hp]

/-- Witness for C6: status 200 with the unparseable body `"not json"`. -/
theorem C6_parse_failure_swallowed_witness :
    jsonParseDemo "not json" = none
    ∧ RestClient.processResponse jsonParseDemo none 200 "not json" =
        .ok { statusCode := 200, result := none } := by
  exact ⟨rfl, C6_parse_failure_swallowed jsonParseDemo none 200 "not json"
    (by decide) (by decide) rfl⟩

/-- C7: `prepareUrlWithQueryParams` first strips a single trailing `'?'`
from the URL (so a URL already ending in `'?'` composes identically to one
without it), then appends exactly one `'?'` followed by the mapping
serialized with the separator (default `'&'`) between pairs and the
assignment string (default `'='`) between escaped key and escaped value;
with an empty mapping the result is the stripped URL plus a dangling
`'?'`. -/
theorem C7_query_param_attachment :
    (∀ u qp, JsUrl.endsWithQuestion u = false →
      Util.prepareUrlWithQueryParams (u ++ ['?']) qp = Util.prepareUrlWithQueryParams u qp)
    ∧ (∀ u qp, JsUrl.endsWithQuestion u = false →
      Util.prepareUrlWithQueryParams u qp =
        u ++ '?' :: Util.queryStringStringify qp.params
          (Util.jsOrDefault qp.sep ['&']) (Util.jsOrDefault qp.eq ['=']))
    ∧ (∀ u sep eq, Util.prepareUrlWithQueryParams u ⟨[], sep, eq⟩ =
        (if JsUrl.endsWithQuestion u then u.dropLast else u) ++ ['?'])
    ∧ Util.getUrl "/" "http://host/p" none
        (some ⟨some ⟨[("a", "1"), ("b", "2")], none, none⟩⟩) = some "http://host/p?a=1&b=2"
    ∧ Util.getUrl "/" "u??" none (some ⟨some ⟨[], none, none⟩⟩) = some "u??"
    ∧ Util.getUrl "/" "u" none (some ⟨some ⟨[("k", "v")], some ";", some ":"⟩⟩) =
        some "u?k:v" := by
  refine ⟨?_, ?_, ?_, by decide, by decide, by decide⟩
  · intro u qp hq
    have hlast : JsUrl.endsWithQuestion (u ++ ['?']) = true := by
      simp [JsUrl.endsWithQuestion]
    simp [Util.prepareUrlWithQueryParams, hlast, hq]
  · intro u qp hq
    simp [Util.prepareUrlWithQueryParams, hq]
  · intro u sep eq
    by_cases hq : JsUrl.endsWithQuestion u <;>
      simp [Util.prepareUrlWithQueryParams, Util.queryStringStringify, hq,
        List.intercalate]

/-- Witness for C7: stripping the single trailing `'?'` of `"u?"` makes it
compose like `"u"`. -/
theorem C7_query_param_attachment_witness :
    JsUrl.endsWithQuestion "u".toList = false
    ∧ Util.prepareUrlWithQueryParams ("u".toList ++ ['?']) ⟨[("a", "1")], none, none⟩ =
        Util.prepareUrlWithQueryParams "u".toList ⟨[("a", "1")], none, none⟩ := by
  exact ⟨by decide,
    C7_query_param_attachment.1 "u".toList ⟨[("a", "1")], none, none⟩ (by decide)⟩

/-- The search `List.find?` returns the handler when it is the unique element
satisfying the predicate. -/
theorem find_eq_some_of_unique {α : Type} (p : α → Bool) (l : List α) (h : α)
    (hm : h ∈ l) (hp : p h = true)
    (huniq : ∀ h' ∈ l, p h' = true → h' = h) : l.find? p = some h := by
  induction l with
  | nil => simp at hm
  | cons a t ih =>
    by_cases hpa : p a = true
    · have ha : a = h := huniq a (List.mem_cons_self a t) hpa
      rw [List.find?_cons_of_pos _ hpa, ha]
    · have hne : h ≠ a := fun he => hpa (he ▸ hp)
      have hmt : h ∈ t := by
        rcases List.mem_cons.mp hm with h1 | h1
        · exact absurd h1 hne
        · exact h1
      rw [List.find?_cons_of_neg _ hpa]
      exact ih hmt (fun h' hh' hp' => huniq h' (List.mem_cons_of_mem a hh') hp')

/-- C8: the Dispatcher sends each request exactly once (every outcome's
event trace holds exactly one send and at most one further authentication
round-trip, and no other retry); when the response status is 401 and
exactly one configured handler reports `canHandleAuthentication = true`,
that handler's `handleAuthentication` result is returned as the final
response after a single challenge round-trip; when no handler claims the
challenge the 401 response is returned as-is; any non-401 response is
returned as-is. -/
theorem C8_dispatch_single_challenge :
    ∀ handlers wire,
      ((Dispatcher.dispatch handlers wire).2.count .send = 1
        ∧ (Dispatcher.dispatch handlers wire).2.length ≤ 2)
      ∧ (wire.statusCode ≠ 401 →
          Dispatcher.dispatch handlers wire = (wire, [.send]))
      ∧ (wire.statusCode = 401 →
          (∀ h ∈ handlers, h.canHandleAuthentication wire = false) →
          Dispatcher.dispatch handlers wire = (wire, [.send]))
      ∧ (wire.statusCode = 401 → ∀ h, h ∈ handlers →
          h.canHandleAuthentication wire = true →
          (∀ h' ∈ handlers, h'.canHandleAuthentication wire = true → h' = h) →
          Dispatcher.dispatch handlers wire =
            (h.handleAuthentication wire, [.send, .authRoundTrip])) := by
  intro handlers wire
  refine ⟨?_, ?_, ?_, ?_⟩
  · by_cases h4 : wire.statusCode = 401
    · simp only [Dispatcher.dispatch, if_pos h4]
      cases hf : handlers.find? (fun h => h.canHandleAuthentication wire) <;> simp
    · simp only [Dispatcher.dispatch, if_neg h4]
      constructor <;> decide
  · intro h4
    simp [Dispatcher.dispatch, if_neg h4]
  · intro h4 hall
    have hf : handlers.find? (fun h => h.canHandleAuthentication wire) = none :=
      List.find?_eq_none.mpr (fun a ha => by simp [hall a ha])
    simp [Dispatcher.dispatch, h4, hf]
  · intro h4 h hm hp huniq
    have hf : handlers.find? (fun h' => h'.canHandleAuthentication wire) = some h :=
      find_eq_some_of_unique _ handlers h hm hp huniq
    simp [Dispatcher.dispatch, h4, hf]

/-- A handler that claims every challenge and answers 200. -/
def demoAuthHandler : Dispatcher.CredentialHandler :=
  ⟨fun _ => true, fun _ => ⟨200, "ok"⟩⟩

/-- Witness for C8: with a single claiming handler, a 401 is followed by
exactly one challenge round-trip whose result is final. -/
theorem C8_dispatch_single_challenge_witness :
    Dispatcher.dispatch [demoAuthHandler] ⟨401, ""⟩ =
      (⟨200, "ok"⟩, [.send, .authRoundTrip]) := by
  exact (C8_dispatch_single_challenge [demoAuthHandler] ⟨401, ""⟩).2.2.2 rfl demoAuthHandler
    (List.mem_singleton.mpr rfl) rfl (fun h' hm _ => List.mem_singleton.mp hm)

namespace JsonHandler

mutual

/-- The relation `ReplacesDates dp v w`: `w` is `v` with exactly the string values the
date parser accepts replaced by the corresponding date values, and every
other value (including every non-string leaf and every unaccepted string)
unchanged, recursively through arrays and objects (keys untouched). -/
inductive ReplacesDates (dp : String → Option Int) : JVal → JVal → Prop where
  | null : ReplacesDates dp .null .null
  | bool (b : Bool) : ReplacesDates dp (.bool b) (.bool b)
  | num (n : Int) : ReplacesDates dp (.num n) (.num n)
  | date (ms : Int) : ReplacesDates dp (.date ms) (.date ms)
  | str_to_date (s : String) (ms : Int) (h : dp s = some ms) :
      ReplacesDates dp (.str s) (.date ms)
  | str_keep (s : String) (h : dp s = none) : ReplacesDates dp (.str s) (.str s)
  | arr (xs ys : List JVal) (h : ReplacesDatesElems dp xs ys) :
      ReplacesDates dp (.arr xs) (.arr ys)
  | obj (fs gs : List (String × JVal)) (h : ReplacesDatesFields dp fs gs) :
      ReplacesDates dp (.obj fs) (.obj gs)

/-- Pointwise `ReplacesDates` over array elements. -/
inductive ReplacesDatesElems (dp : String → Option Int) :
    List JVal → List JVal → Prop where
  | nil : ReplacesDatesElems dp [] []
  | cons (x y : JVal) (xs ys : List JVal) (h : ReplacesDates dp x y)
      (hs : ReplacesDatesElems dp xs ys) :
      ReplacesDatesElems dp (x :: xs) (y :: ys)

/-- Pointwise `ReplacesDates` over object fields, keys unchanged. -/
inductive ReplacesDatesFields (dp : String → Option Int) :
    List (String × JVal) → List (String × JVal) → Prop where
  | nil : ReplacesDatesFields dp [] []
  | cons (k : String) (x y : JVal) (fs gs : List (String × JVal))
      (h : ReplacesDates dp x y) (hs : ReplacesDatesFields dp fs gs) :
      ReplacesDatesFields dp ((k, x) :: fs) ((k, y) :: gs)

end

mutual

/-- The reviver traversal implements exactly the date-replacement
relation. -/
theorem deepMap_replaces (dp : String → Option Int) :
    ∀ v : JVal, ReplacesDates dp v (deepMap (dateTimeDeserializer dp) v)
  | .null => .null
  | .bool b => .bool b
  | .num n => .num n
  | .date ms => .date ms
  | .str s => by
    simp only [deepMap, dateTimeDeserializer]
    cases h : dp s with
    | some ms => exact .str_to_date s ms h
    | none => exact .str_keep s h
  | .arr xs => by
    simp only [deepMap, dateTimeDeserializer]
    exact .arr xs _ (deepMapElems_replaces dp xs)
  | .obj fs => by
    simp only [deepMap, dateTimeDeserializer]
    exact .obj fs _ (deepMapFields_replaces dp fs)

theorem deepMapElems_replaces (dp : String → Option Int) :
    ∀ xs : List JVal, ReplacesDatesElems dp xs (deepMapElems (dateTimeDeserializer dp) xs)
  | [] => .nil
  | x :: xs => .cons x _ xs _ (deepMap_replaces dp x) (deepMapElems_replaces dp xs)

theorem deepMapFields_replaces (dp : String → Option Int) :
    ∀ fs : List (String × JVal),
      ReplacesDatesFields dp fs (deepMapFields (dateTimeDeserializer dp) fs)
  | [] => .nil
  | (k, v) :: fs => .cons k v _ fs _ (deepMap_replaces dp v) (deepMapFields_replaces dp fs)

end

end JsonHandler

/-- C9: with the deserialize-dates flag set, `handle(rawBody)` returns the
JSON parse of the body in which exactly the string values accepted by the
date parser (the "ISO-8601-looking" strings, i.e. those `new Date(value)`
parses to a valid date) are replaced by the corresponding date values and
everything else is unchanged; with the flag unset it returns the plain
JSON parse with all string values unchanged. -/
theorem C9_json_dates :
    (∀ jsonParse dateParse contents v, jsonParse contents = some v →
      ∃ w, JsonHandler.handle jsonParse dateParse true contents = some w
        ∧ JsonHandler.ReplacesDates dateParse v w)
    ∧ (∀ jsonParse dateParse contents,
        JsonHandler.handle jsonParse dateParse false contents = jsonParse contents) := by
  constructor
  · intro jsonParse dateParse contents v hv
    refine ⟨JsonHandler.deepMap (JsonHandler.dateTimeDeserializer dateParse) v, ?_, ?_⟩
    · simp [JsonHandler.handle, hv]
    · exact JsonHandler.deepMap_replaces dateParse v
  · intro jsonParse dateParse contents
    simp [JsonHandler.handle]

/-- A concrete instance of JS `new Date(string)` on the witness string:
`"2020-01-01T00:00:00.000Z"` is a valid date with epoch value
1577836800000 ms. -/
def dateParseDemo : String → Option Int := fun s =>
  if s = "2020-01-01T00:00:00.000Z" then some 1577836800000 else none

/-- Witness for C9: a body that parses to an ISO-8601 string value is
revived to the corresponding date. -/
theorem C9_json_dates_witness :
    jsonParseDemo "\"2020-01-01T00:00:00.000Z\"" = some (.str "2020-01-01T00:00:00.000Z")
    ∧ (∃ w, JsonHandler.handle jsonParseDemo dateParseDemo true
          "\"2020-01-01T00:00:00.000Z\"" = some w
        ∧ JsonHandler.ReplacesDates dateParseDemo (.str "2020-01-01T00:00:00.000Z") w)
    ∧ JsonHandler.handle jsonParseDemo dateParseDemo false "\"2020-01-01T00:00:00.000Z\"" =
        some (.str "2020-01-01T00:00:00.000Z") := by
  refine ⟨rfl, ?_, ?_⟩
  · exact C9_json_dates.1 jsonParseDemo dateParseDemo "\"2020-01-01T00:00:00.000Z\""
      (.str "2020-01-01T00:00:00.000Z") rfl
  · rw [C9_json_dates.2 jsonParseDemo dateParseDemo "\"2020-01-01T00:00:00.000Z\""]
    rfl

namespace JsonHandler

/-- The test `List.isPrefixOf` agrees with the leading-segment characterization. -/
theorem isPrefixOf_eq_true_iff : ∀ (n l : List Char),
    n.isPrefixOf l = true ↔ ∃ t, l = n ++ t := by
  intro n
  induction n with
  | nil => intro l; simp [List.isPrefixOf]
  | cons a n2 ih =>
    intro l
    cases l with
    | nil => simp [List.isPrefixOf]
    | cons b l2 =>
      simp only [List.isPrefixOf, Bool.and_eq_true, beq_iff_eq, ih, List.cons_append,
        List.cons.injEq]
      constructor
      · rintro ⟨hab, t, ht⟩
        exact ⟨t, hab.symm, ht⟩
      · rintro ⟨t, hba, ht⟩
        exact ⟨hba.symm, t, ht⟩

/-- The index search succeeds exactly when the needle occurs as a
contiguous segment. -/
theorem idxOfSub_isSome_iff (n : List Char) :
    ∀ l, (idxOfSub n l).isSome = true ↔ ∃ s t, l = s ++ n ++ t := by
  intro l
  induction l with
  | nil =>
    cases n with
    | nil => simp [idxOfSub, List.isPrefixOf]
    | cons a n2 => simp [idxOfSub, List.isPrefixOf]
  | cons b l2 ih =>
    by_cases h : n.isPrefixOf (b :: l2) = true
    · obtain ⟨t, ht⟩ := (isPrefixOf_eq_true_iff _ _).mp h
      simp only [idxOfSub, if_pos h, Option.isSome_some, true_iff]
      exact ⟨[], t, by simpa using ht⟩
    · have hmap : ((idxOfSub n l2).map (· + 1)).isSome = (idxOfSub n l2).isSome := by
        cases idxOfSub n l2 <;> rfl
      simp only [idxOfSub, if_neg h, hmap, ih]
      constructor
      · rintro ⟨s, t, hst⟩
        exact ⟨b :: s, t, by simp [hst]⟩
      · rintro ⟨s, t, hst⟩
        cases s with
        | nil =>
          exact absurd ((isPrefixOf_eq_true_iff _ _).mpr ⟨t, by simpa using hst⟩) h
        | cons s0 s2 =>
          simp only [List.cons_append, List.cons.injEq] at hst
          exact ⟨s2, t, hst.2⟩

/-- The test `hay.indexOf(needle) > -1` holds exactly when `needle` occurs in
`hay`. -/
theorem jsIndexOf_pos_iff (hay needle : String) :
    jsIndexOf hay needle > -1 ↔ ∃ s t, hay.toList = s ++ needle.toList ++ t := by
  have hiff := idxOfSub_isSome_iff needle.toList hay.toList
  unfold jsIndexOf
  cases ho : idxOfSub needle.toList hay.toList with
  | some i =>
    rw [ho] at hiff
    simp only [Option.isSome_some, true_iff] at hiff
    simp only [gt_iff_lt, iff_true_intro hiff, iff_true]
    exact lt_of_lt_of_le (by norm_num) (Int.natCast_nonneg i)
  | none =>
    rw [ho] at hiff
    simp only [Option.isSome_none, Bool.false_eq_true, false_iff] at hiff
    simp only [gt_iff_lt, iff_false_intro hiff, iff_false, not_lt]
    norm_num

end JsonHandler

/-- C10: `canHandle` returns a boolean only when the response's
`content-type` header is present, and then returns `true` exactly when
the header value contains `"application/json"`; when the header is absent
the call dereferences `undefined` and fails (returns no boolean) instead
of returning `false`. -/
theorem C10_canHandle_content_type :
    (∀ headers, JsonHandler.lookupHeader headers "content-type" = none →
      JsonHandler.canHandle headers = none)
    ∧ (∀ headers v, JsonHandler.lookupHeader headers "content-type" = some v →
      JsonHandler.canHandle headers =
          some (decide (JsonHandler.jsIndexOf v "application/json" > -1))
        ∧ ((JsonHandler.jsIndexOf v "application/json" > -1) ↔
            ∃ s t, v.toList = s ++ "application/json".toList ++ t)) := by
  constructor
  · intro headers h
    simp [JsonHandler.canHandle, h]
  · intro headers v h
    exact ⟨by simp [JsonHandler.canHandle, h],
      JsonHandler.jsIndexOf_pos_iff v "application/json"⟩

/-- Witness for C10: a JSON content type yields `true`; absent
`content-type` fails rather than returning `false`. -/
theorem C10_canHandle_content_type_witness :
    JsonHandler.canHandle [("content-type", "application/json; charset=utf-8")] = some true
    ∧ JsonHandler.canHandle [("accept", "text/plain")] = none := by
  constructor
  · have h := (C10_canHandle_content_type.2
      [("content-type", "application/json; charset=utf-8")]
      "application/json; charset=utf-8" rfl).1
    rw [h]
    decide
  · exact C10_canHandle_content_type.1 [("accept", "text/plain")] rfl
